import Mathlib

/-!
# Verification of the nodejs-server-pages core

Shallow embedding of the worker runtime (`runner.js`), the dispatcher
(`njsp.js`) and the session store (`session.js`), with theorems settling the
frozen claims about the natural-language specification.

Conventions of the embedding:
* machine integers are `Nat` (no overflow is relevant here);
* the JS maps `times`/`funcs` (object dictionaries) are association lists;
* response data is modelled as `String` (`data + ""` is the identity on
  strings; the `Buffer`/object conversion branch carries no extra behaviour
  for string data);
* the zlib streaming-compressor branch of `Response.prototype.write`/`end`
  is outside the embedding: every state the theorems touch has
  `compression = none`, which is what the constructor produces and what
  `compress` produces for a request that accepts neither `br` nor `gzip`.
-/

namespace NJSP

/-! ### JavaScript string primitives

Rendered over `List Char` by structural recursion so that every theorem's
witness evaluates inside the kernel (the library's `String.toLower`,
`splitOn` and `trim` are defined by well-founded recursion on byte
positions and do not reduce). -/

/-- JavaScript's `\s` class (also what `String.prototype.trim` strips). -/
def jsWs (c : Char) : Bool :=
  c = ' ' || c = '\t' || c = '\n' || c = '\r' ||
  c = Char.ofNat 11 || c = Char.ofNat 12 || c = Char.ofNat 0xa0 ||
  c = Char.ofNat 0x1680 || (0x2000 ≤ c.toNat && c.toNat ≤ 0x200a) ||
  c = Char.ofNat 0x2028 || c = Char.ofNat 0x2029 || c = Char.ofNat 0x202f ||
  c = Char.ofNat 0x205f || c = Char.ofNat 0x3000 || c = Char.ofNat 0xfeff

/-- `toLowerCase()` on one character (the header names and encodings the
code lowercases are ASCII). -/
def lowerChar (c : Char) : Char :=
  if 65 ≤ c.toNat ∧ c.toNat ≤ 90 then Char.ofNat (c.toNat + 32) else c

/-- `s.toLowerCase()`. -/
def lowerStr (s : String) : String :=
  ⟨s.data.map lowerChar⟩

/-- `s.split(",")`. -/
def splitCommas (s : List Char) : List (List Char) :=
  match s with
  | [] => [[]]
  | c :: rest =>
    if c = ',' then [] :: splitCommas rest
    else
      match splitCommas rest with
      | t :: ts => (c :: t) :: ts
      | [] => [[c]]

/-- `s.trim()`. -/
def jsTrim (s : List Char) : List Char :=
  ((s.dropWhile jsWs).reverse.dropWhile jsWs).reverse

/-- Messages a worker sends to the supervisor via `process.send`:
`{c:"h"}` (header), `{c:"w"}` (write) and `{c:"e"}` (end). -/
inductive Msg where
  | h (code : Nat) (headers : List (String × String))
  | w (data : String)
  | e
deriving DecidableEq, Repr

/-- `this.headers[h.toLowerCase()] = value`: JS object assignment keyed by the
lowercased name — replace in place when the key exists, append otherwise. -/
def setHdr (hs : List (String × String)) (name value : String) : List (String × String) :=
  let k := lowerStr name
  if hs.any (fun p => p.1 = k) then hs.map (fun p => if p.1 = k then (k, value) else p)
  else hs ++ [(k, value)]

/-- The `Response` simulacrum of `runner.js` (fields of the constructor).
The `compressor` object itself is not represented: it is only created inside
the zlib branch, which is outside the embedding. -/
structure Resp where
  code : Nat
  headers : List (String × String)
  sentHeaders : Bool
  ended : Bool
  compression : Option String
deriving DecidableEq, Repr

/-- `new Response()`. -/
def Resp.mk0 : Resp :=
  { code := 200
    headers := [("content-type", "text/html")]
    sentHeaders := false
    ended := false
    compression := none }

/-- `Response.prototype.writeHead` — ignored once ended or once headers were
sent; otherwise folds the given headers in, emits the header message and
latches `sentHeaders`.  The `headers` argument being absent in JS is the
empty list here. -/
def Resp.writeHead (r : Resp) (code : Nat) (headers : List (String × String)) :
    Resp × List Msg :=
  if r.ended || r.sentHeaders then (r, [])
  else
    let r1 : Resp := { r with headers := headers.foldl (fun hs p => setHdr hs p.1 p.2) r.headers }
    ({ r1 with sentHeaders := true }, [Msg.h code r1.headers])

/-- `Response.prototype.setHeader` — unconditional header-table mutation,
no message. -/
def Resp.setHeader (r : Resp) (name value : String) : Resp :=
  { r with headers := setHdr r.headers name value }

/-- `Response.prototype.write` for string data on the identity-encoding path
(`compression = null`).  Ignored after `end`; flushes `writeHead(200)` first
when headers were not yet sent. -/
def Resp.write (r : Resp) (data : String) : Resp × List Msg :=
  if r.ended then (r, [])
  else
    let p := if !r.sentHeaders then r.writeHead 200 [] else (r, [])
    (p.1, p.2 ++ [Msg.w data])

/-- `Response.prototype.end` on the identity-encoding path (no compressor):
ignored when already ended; flushes headers if needed, emits the terminal
message and latches `ended`. -/
def Resp.endR (r : Resp) : Resp × List Msg :=
  if r.ended then (r, [])
  else
    let p := if !r.sentHeaders then r.writeHead 200 [] else (r, [])
    ({ p.1 with ended := true }, p.2 ++ [Msg.e])

/-- `Response.prototype.compress(req)`: choose a codec from the request's
`accept-encoding` header and record it in the `content-encoding` header.
Both zlib codecs are taken to be available. -/
def Resp.compress (r : Resp) (acceptEncoding : String) : Resp :=
  let supported := (splitCommas acceptEncoding.data).map jsTrim
  if supported.contains "br".data then
    ({ r with compression := some "br" }).setHeader "content-encoding" "br"
  else if supported.contains "gzip".data then
    ({ r with compression := some "gzip" }).setHeader "content-encoding" "gzip"
  else
    ({ r with compression := none }).setHeader "content-encoding" "identity"

/-- One call a page can make on the response object. -/
inductive Call where
  | writeHead (code : Nat) (headers : List (String × String))
  | setHeader (name value : String)
  | write (data : String)
  | endR
deriving DecidableEq, Repr

/-- Dispatch one call to the corresponding `Response` method. -/
def Resp.step (r : Resp) : Call → Resp × List Msg
  | .writeHead c hs => r.writeHead c hs
  | .setHeader n v => (r.setHeader n v, [])
  | .write d => r.write d
  | .endR => r.endR

/-- Run a sequence of calls, collecting the emitted messages in order. -/
def runCalls (r : Resp) : List Call → Resp × List Msg
  | [] => (r, [])
  | c :: cs =>
    let p := r.step c
    let q := runCalls p.1 cs
    (q.1, p.2 ++ q.2)

/-- The shape the spec demands of one response's emission: exactly one header
message, then the writes, then exactly one terminal message. -/
def goodTrace (tr : List Msg) : Prop :=
  ∃ (code : Nat) (hdrs : List (String × String)) (ws : List String),
    tr = Msg.h code hdrs :: (List.map Msg.w ws ++ [Msg.e])

/-! ### Case equations for the `Response` methods -/

theorem writeHead_of_sent (r : Resp) (code : Nat) (hs : List (String × String))
    (h : r.sentHeaders = true) : r.writeHead code hs = (r, []) := by
  simp [Resp.writeHead, h]

theorem writeHead_of_ended (r : Resp) (code : Nat) (hs : List (String × String))
    (h : r.ended = true) : r.writeHead code hs = (r, []) := by
  simp [Resp.writeHead, h]

theorem writeHead_of_fresh (r : Resp) (code : Nat) (hs : List (String × String))
    (h1 : r.sentHeaders = false) (h2 : r.ended = false) :
    r.writeHead code hs =
      ({ r with
          headers := hs.foldl (fun a p => setHdr a p.1 p.2) r.headers,
          sentHeaders := true },
        [Msg.h code (hs.foldl (fun a p => setHdr a p.1 p.2) r.headers)]) := by
  simp [Resp.writeHead, h1, h2]

theorem write_of_ended (r : Resp) (d : String) (h : r.ended = true) :
    r.write d = (r, []) := by
  simp [Resp.write, h]

theorem write_of_sent (r : Resp) (d : String)
    (h1 : r.sentHeaders = true) (h2 : r.ended = false) :
    r.write d = (r, [Msg.w d]) := by
  simp [Resp.write, h1, h2]

theorem write_of_fresh (r : Resp) (d : String)
    (h1 : r.sentHeaders = false) (h2 : r.ended = false) :
    r.write d =
      ({ r with sentHeaders := true }, [Msg.h 200 r.headers, Msg.w d]) := by
  simp [Resp.write, h1, h2, writeHead_of_fresh r 200 [] h1 h2, List.foldl]

theorem endR_of_ended (r : Resp) (h : r.ended = true) : r.endR = (r, []) := by
  simp [Resp.endR, h]

theorem endR_of_sent (r : Resp) (h1 : r.sentHeaders = true) (h2 : r.ended = false) :
    r.endR = ({ r with ended := true }, [Msg.e]) := by
  simp [Resp.endR, h1, h2]

theorem endR_of_fresh (r : Resp) (h1 : r.sentHeaders = false) (h2 : r.ended = false) :
    r.endR =
      ({ r with sentHeaders := true, ended := true }, [Msg.h 200 r.headers, Msg.e]) := by
  simp [Resp.endR, h1, h2, writeHead_of_fresh r 200 [] h1 h2, List.foldl]

/-! ### Trace lemmas for the output-sink contract -/

theorem ended_runCalls_nil (cs : List Call) (r : Resp) (h : r.ended = true) :
    (runCalls r cs).1.ended = true ∧ (runCalls r cs).2 = [] := by
  induction cs generalizing r with
  | nil => exact ⟨h, rfl⟩
  | cons c cs ih =>
    cases c with
    | writeHead code hs =>
      simp only [runCalls, Resp.step, writeHead_of_ended r code hs h]
      simpa using ih r h
    | setHeader n v =>
      simp only [runCalls, Resp.step]
      have h' : (r.setHeader n v).ended = true := h
      simpa using ih _ h'
    | write d =>
      simp only [runCalls, Resp.step, write_of_ended r d h]
      simpa using ih r h
    | endR =>
      simp only [runCalls, Resp.step, endR_of_ended r h]
      simpa using ih r h

theorem after_sent (cs : List Call) (r : Resp)
    (hs : r.sentHeaders = true) (he : r.ended = false) (hmem : Call.endR ∈ cs) :
    ∃ ws : List String, (runCalls r cs).2 = List.map Msg.w ws ++ [Msg.e] := by
  induction cs generalizing r with
  | nil => cases hmem
  | cons c cs ih =>
    cases c with
    | writeHead code hs' =>
      have hmem' : Call.endR ∈ cs := by simpa using hmem
      simp only [runCalls, Resp.step, writeHead_of_sent r code hs' hs]
      simpa using ih r hs he hmem'
    | setHeader n v =>
      have hmem' : Call.endR ∈ cs := by simpa using hmem
      simp only [runCalls, Resp.step]
      have hs1 : (r.setHeader n v).sentHeaders = true := hs
      have he1 : (r.setHeader n v).ended = false := he
      simpa using ih (r.setHeader n v) hs1 he1 hmem'
    | write d =>
      have hmem' : Call.endR ∈ cs := by simpa using hmem
      simp only [runCalls, Resp.step, write_of_sent r d hs he]
      obtain ⟨ws, hws⟩ := ih r hs he hmem'
      exact ⟨d :: ws, by simp [hws]⟩
    | endR =>
      simp only [runCalls, Resp.step, endR_of_sent r hs he]
      have h2 : ({ r with ended := true } : Resp).ended = true := rfl
      obtain ⟨-, htr⟩ := ended_runCalls_nil cs { r with ended := true } h2
      exact ⟨[], by simp [htr]⟩

theorem trace_shape (cs : List Call) (r : Resp)
    (hs : r.sentHeaders = false) (he : r.ended = false) (hmem : Call.endR ∈ cs) :
    goodTrace (runCalls r cs).2 := by
  induction cs generalizing r with
  | nil => cases hmem
  | cons c cs ih =>
    cases c with
    | writeHead code hs' =>
      simp only [runCalls, Resp.step, writeHead_of_fresh r code hs' hs he]
      by_cases hend : Call.endR ∈ cs
      · obtain ⟨ws, hws⟩ := after_sent cs
          { r with
              headers := hs'.foldl (fun a p => setHdr a p.1 p.2) r.headers,
              sentHeaders := true } rfl he hend
        exact ⟨code, hs'.foldl (fun a p => setHdr a p.1 p.2) r.headers, ws, by simp [hws]⟩
      · have hor : Call.endR = Call.writeHead code hs' ∨ Call.endR ∈ cs := by
          simpa using hmem
        rcases hor with h | h
        · cases h
        · exact absurd h hend
    | setHeader n v =>
      have hmem' : Call.endR ∈ cs := by simpa using hmem
      simp only [runCalls, Resp.step]
      have hs1 : (r.setHeader n v).sentHeaders = false := hs
      have he1 : (r.setHeader n v).ended = false := he
      simpa using ih (r.setHeader n v) hs1 he1 hmem'
    | write d =>
      have hmem' : Call.endR ∈ cs := by simpa using hmem
      simp only [runCalls, Resp.step, write_of_fresh r d hs he]
      obtain ⟨ws, hws⟩ := after_sent cs { r with sentHeaders := true } rfl he hmem'
      exact ⟨200, r.headers, d :: ws, by simp [hws]⟩
    | endR =>
      simp only [runCalls, Resp.step, endR_of_fresh r hs he]
      have h2 : ({ r with sentHeaders := true, ended := true } : Resp).ended = true := rfl
      obtain ⟨-, htr⟩ := ended_runCalls_nil cs { r with sentHeaders := true, ended := true } h2
      exact ⟨200, r.headers, [], by simp [htr]⟩

theorem headers_irrelevant_after_sent (cs : List Call) (r : Resp)
    (hs : List (String × String)) (h : r.sentHeaders = true) :
    (runCalls { r with headers := hs } cs).2 = (runCalls r cs).2 := by
  induction cs generalizing r hs with
  | nil => rfl
  | cons c cs ih =>
    cases c with
    | writeHead code hs' =>
      have ha : ({ r with headers := hs } : Resp).sentHeaders = true := h
      simp only [runCalls, Resp.step, writeHead_of_sent _ code hs' ha,
        writeHead_of_sent r code hs' h]
      exact congrArg _ (ih r hs h)
    | setHeader n v =>
      simp only [runCalls, Resp.step, Resp.setHeader, List.nil_append]
      exact (ih r (setHdr hs n v) h).trans (ih r (setHdr r.headers n v) h).symm
    | write d =>
      have ha : ({ r with headers := hs } : Resp).sentHeaders = true := h
      by_cases hend : r.ended = true
      · have hb : ({ r with headers := hs } : Resp).ended = true := hend
        simp only [runCalls, Resp.step, write_of_ended _ d hb, write_of_ended r d hend]
        exact congrArg _ (ih r hs h)
      · have hend' : r.ended = false := by
          cases hre : r.ended
          · rfl
          · exact absurd hre hend
        have hb : ({ r with headers := hs } : Resp).ended = false := hend'
        simp only [runCalls, Resp.step, write_of_sent _ d ha hb, write_of_sent r d h hend']
        exact congrArg _ (ih r hs h)
    | endR =>
      have ha : ({ r with headers := hs } : Resp).sentHeaders = true := h
      by_cases hend : r.ended = true
      · have hb : ({ r with headers := hs } : Resp).ended = true := hend
        simp only [runCalls, Resp.step, endR_of_ended _ hb, endR_of_ended r hend]
        exact congrArg _ (ih r hs h)
      · have hend' : r.ended = false := by
          cases hre : r.ended
          · rfl
          · exact absurd hre hend
        have hb : ({ r with headers := hs } : Resp).ended = false := hend'
        simp only [runCalls, Resp.step, endR_of_sent _ ha hb, endR_of_sent r h hend']
        exact congrArg _ (ih { r with ended := true } hs h)

/-! ### The JSS template parser (`parse` / `parseJS` in `runner.js`)

Files are `List Char`; `file.slice(a, b)` is `(file.drop a).take (b - a)`;
`file[i]` out of range is JS `undefined`, which compares unequal to every
character — rendered by `chAt` with a NUL default (NUL is never a character
the scanner compares against). -/

/-- `file[i]`, with JS `undefined` out of range rendered as NUL. -/
def chAt (file : List Char) (i : Nat) : Char :=
  file.getD i (Char.ofNat 0)

/-- `part.trim() !== ""`: true iff the slice holds a non-whitespace char. -/
def trimNonempty (s : List Char) : Bool :=
  s.any (fun c => !jsWs c)

/-- `file.slice(i, i + pat.length) === pat`. -/
def lookAt (file : List Char) (i : Nat) (pat : List Char) : Bool :=
  (file.drop i).take pat.length == pat

/-- The inner loop of `parseJS` skipping a multi-line comment: starts just
after the opening, stops two past a closing `*‍/`, or at end of file. -/
def skipMulti (file : List Char) (i : Nat) : Nat :=
  if _h : i < file.length then
    if chAt file i = '*' ∧ chAt file (i + 1) = '/' then i + 2
    else skipMulti file (i + 1)
  else i
termination_by file.length - i
decreasing_by omega

/-- The inner loop skipping a single-line comment: stops on the newline
(or end of file). -/
def skipLine (file : List Char) (i : Nat) : Nat :=
  if _h : i < file.length then
    if chAt file i = '\n' then i else skipLine file (i + 1)
  else i
termination_by file.length - i
decreasing_by omega

/-- The inner loop skipping a quoted string with `\\`-escapes: stops on the
closing quote `q` (or end of file). -/
def skipStr (file : List Char) (q : Char) (i : Nat) : Nat :=
  if _h : i < file.length then
    if chAt file i = q then i
    else if chAt file i = '\\' then skipStr file q (i + 2)
    else skipStr file q (i + 1)
  else i
termination_by file.length - i
decreasing_by all_goals omega

theorem skipMulti_ge (file : List Char) (i : Nat) : i ≤ skipMulti file i := by
  unfold skipMulti
  split
  · split
    · omega
    · have := skipMulti_ge file (i + 1)
      omega
  · exact Nat.le_refl i
termination_by file.length - i
decreasing_by omega

theorem skipLine_ge (file : List Char) (i : Nat) : i ≤ skipLine file i := by
  unfold skipLine
  split
  · split
    · omega
    · have := skipLine_ge file (i + 1)
      omega
  · exact Nat.le_refl i
termination_by file.length - i
decreasing_by omega

theorem skipStr_ge (file : List Char) (q : Char) (i : Nat) : i ≤ skipStr file q i := by
  unfold skipStr
  split
  · split
    · omega
    · split
      · have := skipStr_ge file q (i + 2)
        omega
      · have := skipStr_ge file q (i + 1)
        omega
  · exact Nat.le_refl i
termination_by file.length - i
decreasing_by all_goals omega

/-- The main scan loop of `parseJS`: advances over comments and quoted
strings until an unquoted `?>` (returning the index of its `?`) or the end
of the file.  After an inner skip the outer `for` applies its own `i++`,
which is why each restart adds 1 (this faithfully reproduces the quirk that
a `?>` immediately after a `*‍/` is not recognised). -/
def jsScan (file : List Char) (i : Nat) : Nat :=
  if _h : i < file.length then
    if chAt file i = '/' ∧ chAt file (i + 1) = '*' then
      jsScan file (skipMulti file (i + 2) + 1)
    else if chAt file i = '/' ∧ chAt file (i + 1) = '/' then
      jsScan file (skipLine file (i + 2) + 1)
    else if chAt file i = Char.ofNat 34 ∨ chAt file i = Char.ofNat 39 ∨
        chAt file i = Char.ofNat 96 then
      jsScan file (skipStr file (chAt file i) (i + 1) + 1)
    else if chAt file i = '?' ∧ chAt file (i + 1) = '>' then
      i
    else
      jsScan file (i + 1)
  else i
termination_by file.length - i
decreasing_by
  · have := skipMulti_ge file (i + 2)
    omega
  · have := skipLine_ge file (i + 2)
    omega
  · have := skipStr_ge file (chAt file i) (i + 1)
    omega
  · omega

theorem jsScan_ge (file : List Char) (i : Nat) : i ≤ jsScan file i := by
  unfold jsScan
  split
  · split
    · have h1 := skipMulti_ge file (i + 2)
      have h2 := jsScan_ge file (skipMulti file (i + 2) + 1)
      omega
    · split
      · have h1 := skipLine_ge file (i + 2)
        have h2 := jsScan_ge file (skipLine file (i + 2) + 1)
        omega
      · split
        · have h1 := skipStr_ge file (chAt file i) (i + 1)
          have h2 := jsScan_ge file (skipStr file (chAt file i) (i + 1) + 1)
          omega
        · split
          · omega
          · have := jsScan_ge file (i + 1)
            omega
  · exact Nat.le_refl i
termination_by file.length - i
decreasing_by
  · have := skipMulti_ge file (i + 2)
    omega
  · have := skipLine_ge file (i + 2)
    omega
  · have := skipStr_ge file (chAt file i) (i + 1)
    omega
  · omega

/-- The option-tag regex `/^(js)?(=)?(!)?\s/i` applied to `file.slice(i)`.
Returns `(consumed length, isEchoTag, isGuardTag)` on a match.  Greedy
matching is complete here: a backtracked alternative would need `\s` to
match one of `j`, `s`, `=`, `!`, which are not whitespace. -/
def optStartMatch (s : List Char) : Option (Nat × Bool × Bool) :=
  let p1 : Nat × List Char :=
    match s with
    | c1 :: c2 :: rest =>
      if (c1 = 'j' ∨ c1 = 'J') ∧ (c2 = 's' ∨ c2 = 'S') then (2, rest) else (0, s)
    | _ => (0, s)
  let p2 : Nat × Bool × List Char :=
    match p1.2 with
    | c :: rest => if c = '=' then (1, true, rest) else (0, false, p1.2)
    | _ => (0, false, p1.2)
  let p3 : Nat × Bool × List Char :=
    match p2.2.2 with
    | c :: rest => if c = '!' then (1, true, rest) else (0, false, p2.2.2)
    | _ => (0, false, p2.2.2)
  match p3.2.2 with
  | c :: _ =>
    if jsWs c then some (p1.1 + p2.1 + p3.1 + 1, p2.2.1, p3.2.1) else none
  | [] => none

/-- One append to the compiled output `out.o`:
`lit s` stands for `write(JSON.stringify(s));`, `echo s` for
`write(String( s ));`, `js s` for the raw scanned statement text, and
`inclGuard` for the `<?JS!` not-directly-servable guard line. -/
inductive Frag where
  | lit (s : List Char)
  | js (s : List Char)
  | echo (s : List Char)
  | inclGuard
deriving DecidableEq, Repr

/-- `parseJS(file, i, out)`: returns the end index and the appended output
fragments (guard first, then the echo-wrapped or plain code). -/
def parseJS (file : List Char) (i : Nat) : Nat × List Frag :=
  match optStartMatch (file.drop i) with
  | some (n, isEcho, isGuard) =>
    let i1 := i + n
    let j := jsScan file i1
    let code := (file.drop i1).take (j - i1)
    (j, (if isGuard then [Frag.inclGuard] else []) ++
        [if isEcho then Frag.echo code else Frag.js code])
  | none =>
    let j := jsScan file i
    (j, [Frag.js ((file.drop i).take (j - i))])

theorem parseJS_fst_ge (file : List Char) (i : Nat) : i ≤ (parseJS file i).1 := by
  unfold parseJS
  cases h : optStartMatch (file.drop i) with
  | some t =>
    obtain ⟨n, isEcho, isGuard⟩ := t
    have := jsScan_ge file (i + n)
    simpa using by omega
  | none =>
    have := jsScan_ge file i
    simpa using this

/-- The main loop of `parse`: scan for tags outside HTML comments, emit a
`write` for each literal slice whose trim is nonempty, and splice in the
fragments of each `<? … ?>` tag.  After a tag, `start = i = parseJS(...) + 2;
continue;` still runs the `for` loop's `i++` update, so the scan resumes one
character past the new segment start (faithfully reproducing that a `<?`
immediately after a `?>` is not recognised). -/
def parseLoop (file : List Char) (i start : Nat) (inComment : Bool) : List Frag :=
  if _h : i < file.length then
    if !inComment then
      if lookAt file i ['<', '!', '-', '-'] then
        parseLoop file (i + 1) start true
      else if lookAt file i ['<', '?'] then
        (if trimNonempty ((file.drop start).take (i - start)) then
          [Frag.lit ((file.drop start).take (i - start))] else []) ++
        (parseJS file (i + 2)).2 ++
        parseLoop file ((parseJS file (i + 2)).1 + 3) ((parseJS file (i + 2)).1 + 2) false
      else
        parseLoop file (i + 1) start inComment
    else
      if lookAt file i ['-', '-', '>'] then
        parseLoop file (i + 1) start false
      else
        parseLoop file (i + 1) start inComment
  else
    if trimNonempty (file.drop start) then [Frag.lit (file.drop start)] else []
termination_by file.length - i
decreasing_by
  all_goals first
    | omega
    | (have hpj := parseJS_fst_ge file (i + 2); omega)

/-- `parse(file)`. -/
def parse (file : List Char) : List Frag :=
  parseLoop file 0 0 false

/-- Instrumentation of the same scan: every literal slice the loop cuts,
with no trim filter — the "literal segments" of the file. -/
def segsLoop (file : List Char) (i start : Nat) (inComment : Bool) : List (List Char) :=
  if _h : i < file.length then
    if !inComment then
      if lookAt file i ['<', '!', '-', '-'] then
        segsLoop file (i + 1) start true
      else if lookAt file i ['<', '?'] then
        ((file.drop start).take (i - start)) ::
        segsLoop file ((parseJS file (i + 2)).1 + 3) ((parseJS file (i + 2)).1 + 2) false
      else
        segsLoop file (i + 1) start inComment
    else
      if lookAt file i ['-', '-', '>'] then
        segsLoop file (i + 1) start false
      else
        segsLoop file (i + 1) start inComment
  else
    [file.drop start]
termination_by file.length - i
decreasing_by
  all_goals first
    | omega
    | (have hpj := parseJS_fst_ge file (i + 2); omega)

/-- The literal segments of a template file. -/
def segs (file : List Char) : List (List Char) :=
  segsLoop file 0 0 false

/-- The literal `write` payloads of a fragment list. -/
def litsOf (fs : List Frag) : List (List Char) :=
  fs.filterMap (fun f => match f with | .lit s => some s | _ => none)

theorem litsOf_parseJS (file : List Char) (i : Nat) : litsOf (parseJS file i).2 = [] := by
  unfold parseJS
  cases h : optStartMatch (file.drop i) with
  | some t =>
    obtain ⟨n, isEcho, isGuard⟩ := t
    cases isEcho <;> cases isGuard <;> simp [litsOf]
  | none => simp [litsOf]

theorem litsOf_append (a b : List Frag) : litsOf (a ++ b) = litsOf a ++ litsOf b := by
  simp [litsOf]

theorem parseLoop_lits (file : List Char) (i start : Nat) (ic : Bool) :
    litsOf (parseLoop file i start ic) =
      (segsLoop file i start ic).filter (fun s => trimNonempty s) := by
  unfold parseLoop segsLoop
  split
  · split
    · split
      · exact parseLoop_lits file (i + 1) start true
      · split
        · rw [litsOf_append, litsOf_append, litsOf_parseJS,
            parseLoop_lits file ((parseJS file (i + 2)).1 + 3) ((parseJS file (i + 2)).1 + 2) false]
          split
          · next htrim =>
            simp [litsOf, List.filter, htrim]
          · next htrim =>
            simp only [Bool.not_eq_true] at htrim
            simp [litsOf, List.filter, htrim]
        · exact parseLoop_lits file (i + 1) start ic
    · split
      · exact parseLoop_lits file (i + 1) start false
      · exact parseLoop_lits file (i + 1) start ic
  · split
    · next htrim => simp [litsOf, List.filter, htrim]
    · next htrim =>
      simp only [Bool.not_eq_true] at htrim
      simp [litsOf, List.filter, htrim]
termination_by file.length - i
decreasing_by
  all_goals first
    | omega
    | (have hpj := parseJS_fst_ge file (i + 2); omega)

/-! ### The page-compilation cache (`compile` in `runner.js`) -/

/-- The executable unit built by `new AsyncFunction("module", header + parsed)`:
it is uniquely determined by the source path (which fixes the generated
header via `path.dirname(fname)`) and the parsed template body. -/
structure CompiledUnit where
  srcPath : String
  body : List Frag
deriving DecidableEq, Repr

/-- JS object assignment `obj[k] = v` on a string-keyed dictionary:
replace in place when the key exists, append otherwise. -/
def insertA {β : Type} (l : List (String × β)) (k : String) (v : β) : List (String × β) :=
  if l.any (fun p => p.1 = k) then l.map (fun p => if p.1 = k then (k, v) else p)
  else l ++ [(k, v)]

/-- The worker-global dictionaries `times` (mtimes of already-compiled files)
and `funcs` (already-compiled units). -/
structure CState where
  times : List (String × Nat)
  funcs : List (String × CompiledUnit)
deriving DecidableEq, Repr

/-- The filesystem snapshot seen by one `compile` call: `statSync` mtime and
`readFileSync` content per path; `none` is a missing file (`statSync` throws,
`compile` returns `null`). -/
def FileSys : Type := String → Option (Nat × List Char)

/-- The cache check of `compile`: `fname in times && sbuf.mtimeMs <= times[fname]`
selects `funcs[fname]`, and `if (!func)` falls through to recompilation when
that lookup produced nothing. -/
def cachedUnit (st : CState) (fname : String) (mtimeMs : Nat) : Option CompiledUnit :=
  match st.times.lookup fname with
  | some t => if mtimeMs ≤ t then st.funcs.lookup fname else none
  | none => none

/-- `compile(fname)`.  `check` abstracts the host JavaScript syntax checker
run by the `AsyncFunction` constructor (`none` = the generated source
compiles, `some err` = it throws `err`).  The returned `Bool` records
whether the file content was read (`readFileSync`).  On a syntax error the
exception propagates before `times`/`funcs` are updated, so the cache state
is returned unchanged by the caller (`run`) — here the `.error` carries the
message and the state is untouched by construction. -/
def compile (check : CompiledUnit → Option String) (fsys : FileSys) (st : CState)
    (fname : String) : Except String (Option CompiledUnit × CState × Bool) :=
  match fsys fname with
  | none => .ok (none, st, false)
  | some (mtimeMs, content) =>
    match cachedUnit st fname mtimeMs with
    | some func => .ok (some func, st, false)
    | none =>
      match check ⟨fname, parse content⟩ with
      | some err => .error err
      | none =>
        .ok (some ⟨fname, parse content⟩,
          ⟨insertA st.times fname mtimeMs,
           insertA st.funcs fname ⟨fname, parse content⟩⟩,
          true)

/-! ### The worker entry point (`run` in `runner.js`)

Modelled parts: the compile step with its catch (500 + out-of-band report),
the not-found path (404), and the settlement of the executable unit — the
unit's interaction with the response is a call list `unitCalls` and its
outcome is `unitErr` (`some ex` = the async function rejected with `ex`).
Session open/close, query-string and body parsing, the `require`-cache purge
and the deadline timer do not touch the worker→supervisor message stream and
are not modelled. -/

/-- An out-of-band error report `process.send({c:"x", p, f, e})`. -/
structure XReport where
  p : String
  f : String
  e : String
deriving DecidableEq, Repr

/-- `run(db, params, req, body, res)` with a fresh `Response`, restricted to
the response/message behaviour. -/
def runModel (check : CompiledUnit → Option String) (fsys : FileSys) (st : CState)
    (pname fname acceptEncoding : String)
    (unitCalls : List Call) (unitErr : Option String) :
    CState × Resp × List Msg × List XReport :=
  match compile check fsys st fname with
  | .error ex =>
    let p1 := Resp.mk0.writeHead 500 [("Content-type", "text/plain")]
    let p2 := p1.1.write "500: Internal server error"
    let p3 := p2.1.endR
    (st, p3.1, p1.2 ++ p2.2 ++ p3.2, [⟨pname, fname, ex⟩])
  | .ok (none, st2, _) =>
    let p1 := Resp.mk0.writeHead 404 []
    let p2 := p1.1.write "404: File not found"
    let p3 := p2.1.endR
    (st2, p3.1, p1.2 ++ p2.2 ++ p3.2, [])
  | .ok (some _, st2, _) =>
    let r0 := Resp.mk0.compress acceptEncoding
    let p1 := runCalls r0 unitCalls
    match unitErr with
    | none =>
      let p2 := p1.1.endR
      (st2, p2.1, p1.2 ++ p2.2, [])
    | some ex =>
      let p2 := p1.1.write "ERROR"
      let p3 := p2.1.endR
      (st2, p3.1, p1.2 ++ p2.2 ++ p3.2, [⟨pname, fname, ex⟩])

/-- The status codes among a message trace's header messages. -/
def headerCodes (tr : List Msg) : List Nat :=
  tr.filterMap (fun m => match m with | .h c _ => some c | _ => none)

/-! ### The dispatcher (`createServer` / `spawnThread` in `njsp.js`)

Workers are identified by spawn order; `ready` is `readyThreads` (`push`
appends, `shift` takes the front); `busy` holds the `(worker, request)`
bindings `thr.res = res`.  The relay of `h`/`w` messages to the bound
front-end response does not change dispatcher state and is not modelled;
the `e` message and process exit are. -/

structure Disp where
  nextId : Nat
  ready : List Nat
  busy : List (Nat × Nat)
deriving DecidableEq, Repr

/-- `spawnThread()`: fork a fresh worker and `readyThreads.push(c)`. -/
def spawnThread (d : Disp) : Disp :=
  { nextId := d.nextId + 1, ready := d.ready ++ [d.nextId], busy := d.busy }

/-- Externally visible dispatcher actions for one request. -/
inductive Out where
  | sent (w reqId : Nat)
  | h501 (reqId : Nat)
  | endResp (reqId : Nat)
deriving DecidableEq, Repr

/-- The `go(body)` closure of `createServer`: spawn if no thread is ready,
shift the front thread, bind the response, forward the run message, and
spawn a spare if the ready list drained. -/
def go (d : Disp) (reqId : Nat) : Disp × List Out :=
  let d1 := if d.ready.isEmpty then spawnThread d else d
  match d1.ready with
  | [] => (d1, [])
  | thr :: rest =>
    let d2 : Disp := { nextId := d1.nextId, ready := rest, busy := (thr, reqId) :: d1.busy }
    let d3 := if d2.ready.isEmpty then spawnThread d2 else d2
    (d3, [Out.sent thr reqId])

/-- The request handler of `createServer`: `GET` goes straight to `go`,
`POST` buffers the body then calls `go` (dispatcher-state-wise identical),
anything else is answered 501 and ended by the dispatcher itself. -/
def handleRequest (d : Disp) (method : String) (reqId : Nat) : Disp × List Out :=
  if method = "GET" then go d reqId
  else if method = "POST" then go d reqId
  else (d, [Out.h501 reqId, Out.endResp reqId])

/-- The `"e"` (terminal) message from worker `w`: if a response is bound,
unbind it and `readyThreads.push(c)`; otherwise ignored (`if (!c.res) return`). -/
def onMsgE (d : Disp) (w : Nat) : Disp :=
  if (d.busy.lookup w).isSome then
    { nextId := d.nextId, ready := d.ready ++ [w],
      busy := d.busy.filter (fun q => q.1 ≠ w) }
  else d

/-- The `exit` handler: splice the worker out of `readyThreads` and end its
bound response, if any. -/
def onExit (d : Disp) (w : Nat) : Disp :=
  { nextId := d.nextId, ready := d.ready.erase w,
    busy := d.busy.filter (fun q => q.1 ≠ w) }

/-- Dispatcher events. -/
inductive Ev where
  | request (method : String) (reqId : Nat)
  | msgE (w : Nat)
  | exited (w : Nat)
deriving DecidableEq, Repr

def stepD (d : Disp) : Ev → Disp × List Out
  | .request m r => handleRequest d m r
  | .msgE w => (onMsgE d w, [])
  | .exited w => (onExit d w, [])

def runD (d : Disp) : List Ev → Disp
  | [] => d
  | e :: es => runD (stepD d e).1 es

/-- `createServer` state before listening: one thread spawned. -/
def initD : Disp :=
  spawnThread { nextId := 0, ready := [], busy := [] }

/-- The workers currently bound to a response (Busy). -/
def busyWs (d : Disp) : List Nat := d.busy.map Prod.fst

/-- Dispatcher sanity: no duplicate idle entries, no worker bound twice,
Idle and Busy disjoint, all identifiers below the fork counter. -/
def DInv (d : Disp) : Prop :=
  d.ready.Nodup ∧ (busyWs d).Nodup ∧
  (∀ w ∈ d.ready, w ∉ busyWs d) ∧
  (∀ w ∈ d.ready, w < d.nextId) ∧
  (∀ w ∈ busyWs d, w < d.nextId)

/-! ### The session store (`session.js`) -/

/-- One row of the `session` table; the `expires` datetime is a `Nat`
timestamp, and the stored `value` text is kept as written (JSON encoding is
not embedded). -/
structure Row where
  sid : String
  key : String
  value : String
  expires : Nat
deriving DecidableEq, Repr

/-- The shared backing store. -/
abbrev DB : Type := List Row

/-- A session handle; `new Session(db, request, response)` leaves `sid` and
`expiry` JS-`undefined`, rendered `none`. -/
structure SessionH where
  inited : Bool
  sid : Option String
  expiry : Option Nat
deriving DecidableEq, Repr

/-- A fresh handle as built by the `Session` constructor. -/
def SessionH.mk0 : SessionH :=
  { inited := false, sid := none, expiry := none }

/-- Store operations `init` issues, for the no-op claim. -/
inductive DbOp where
  | setup
  | selectSid (sid : String)
  | beginTxn
  | insertRow (r : Row)
  | commitTxn
  | rollbackTxn
  | deleteExpired
deriving DecidableEq, Repr

/-- The `Set-Cookie` value `cookie.serialize("NJSPSESSID", sid, {maxAge, path})`. -/
structure SetCookie where
  value : String
  maxAge : Nat
  path : String
deriving DecidableEq, Repr

/-- `init`'s configuration; `expiry` and `path` may be JS-absent. -/
structure InitConfig where
  expiry : Option Nat
  path : Option String
deriving DecidableEq, Repr

/-- `config.expiry || 60*60*24*30*6` (JS `||`: `0` also falls back). -/
def effExpiry (cfg : InitConfig) : Nat :=
  match cfg.expiry with
  | some e => if e = 0 then 60 * 60 * 24 * 30 * 6 else e
  | none => 60 * 60 * 24 * 30 * 6

/-- `config.path || "/"` (JS `||`: `""` also falls back). -/
def effPath (cfg : InitConfig) : String :=
  match cfg.path with
  | some p => if p = "" then "/" else p
  | none => "/"

/-- The cookie check of `init`: adopt `NJSPSESSID` only when some row with
that session identifier exists. -/
def cookieSid (cookies : List (String × String)) (db : DB) : Option String :=
  match cookies.lookup "NJSPSESSID" with
  | some cs => if db.any (fun r => r.sid == cs) then some cs else none
  | none => none

/-- The store reads the cookie check performs. -/
def cookieOps (cookies : List (String × String)) : List DbOp :=
  match cookies.lookup "NJSPSESSID" with
  | some cs => [DbOp.selectSid cs]
  | none => []

/-- `Session.prototype.cleanup`: `DELETE FROM session WHERE expires<=now`. -/
def cleanupDB (now : Nat) (db : DB) : DB :=
  db.filter (fun r => !(r.expires ≤ now))

/-- The sentinel row `(sid, "njspsessid", JSON.stringify(sid), now+expiry)`
inserted by the allocation loop (the JSON-encoded value is kept as the
identifier itself; its encoding is not embedded). -/
def sentinelRow (sid : String) (expAt : Nat) : Row :=
  { sid := sid, key := "njspsessid", value := sid, expires := expAt }

/-- The result of one `init` call: the handle afterwards, the store
afterwards, the store operations performed, and the cookie set (if any). -/
abbrev InitOut : Type := SessionH × DB × List DbOp × Option SetCookie

/-- `Session.prototype.init(config)`, one constructor per control path:

* `alreadyInited` — the `if (this.inited) return;` guard: nothing happens;
* `noResponse` — no response object: the handle is marked initialized with
  its expiry fixed, but no identifier is assigned, no cookie set, and the
  store is unchanged beyond the idempotent setup statements;
* `adoptExisting` — the cookie names an identifier with a row in the store:
  it is adopted, the cookie is (re-)set, cleanup runs;
* `allocFresh` — no valid cookie identifier: the retry loop commits a fresh
  identifier's sentinel row (`retryOps` collects the reads/rollbacks of
  failed iterations — duplicate candidates and transaction conflicts),
  the cookie is set, cleanup runs.

Each allocation iteration's BEGIN/SELECT/INSERT/COMMIT executes as one
serializable transaction (the SQLite discipline the code relies on), and the
loop breaks exactly when the SELECT inside the committed transaction found
no row. -/
inductive InitRel (now : Nat) (cookies : List (String × String)) (hasResponse : Bool)
    (cfg : InitConfig) : SessionH → DB → InitOut → Prop where
  | alreadyInited (s : SessionH) (db : DB) (h : s.inited = true) :
      InitRel now cookies hasResponse cfg s db (s, db, [], none)
  | noResponse (s : SessionH) (db : DB)
      (h : s.inited = false) (hr : hasResponse = false) :
      InitRel now cookies hasResponse cfg s db
        ({ s with inited := true, expiry := some (effExpiry cfg) }, db,
          DbOp.setup :: cookieOps cookies, none)
  | adoptExisting (s : SessionH) (db : DB) (sid : String)
      (h : s.inited = false) (hr : hasResponse = true)
      (hc : cookieSid cookies db = some sid) :
      InitRel now cookies hasResponse cfg s db
        ({ s with inited := true, expiry := some (effExpiry cfg), sid := some sid },
          cleanupDB now db,
          DbOp.setup :: cookieOps cookies ++ [DbOp.deleteExpired],
          some ⟨sid, effExpiry cfg, effPath cfg⟩)
  | allocFresh (s : SessionH) (db : DB) (sidNew : String) (retryOps : List DbOp)
      (h : s.inited = false) (hr : hasResponse = true)
      (hc : cookieSid cookies db = none)
      (hfresh : db.all (fun r => !(r.sid == sidNew))) :
      InitRel now cookies hasResponse cfg s db
        ({ s with inited := true, expiry := some (effExpiry cfg), sid := some sidNew },
          cleanupDB now (db ++ [sentinelRow sidNew (now + effExpiry cfg)]),
          DbOp.setup :: cookieOps cookies ++ retryOps ++
            [DbOp.beginTxn, DbOp.selectSid sidNew,
             DbOp.insertRow (sentinelRow sidNew (now + effExpiry cfg)),
             DbOp.commitTxn, DbOp.deleteExpired],
          some ⟨sidNew, effExpiry cfg, effPath cfg⟩)

/-- The JS values `Session.prototype.get` can resolve to. -/
inductive GetRes where
  | ffalse
  | nullv
  | val (v : String)
deriving DecidableEq, Repr

/-- Both miss results (`false` for an uninitialized session, `null` for a
missing key) are "absent". -/
def GetRes.isAbsent : GetRes → Bool
  | .ffalse => true
  | .nullv => true
  | .val _ => false

/-- `Session.prototype.get(key)`: `false` without a session identifier,
`null` when no row matches, the stored value otherwise.  A total function —
no path throws (JSON decoding of stored text is outside the embedding). -/
def sessionGet (s : SessionH) (db : DB) (key : String) : GetRes :=
  match s.sid with
  | none => GetRes.ffalse
  | some sid =>
    match db.find? (fun r => r.sid == sid && r.key == key) with
    | none => GetRes.nullv
    | some r => GetRes.val r.value

/-! ### The identifier-allocation race (`init`'s retry loop) -/

/-- The shared state of `N` racing allocation loops: the set of session
identifiers with a row in the store, and each loop's status (`none` = still
looping with attempt counter `k`; `some sid` = completed with `sid`). -/
structure AllocState where
  store : List String
  procs : List (Option String × Nat)
deriving DecidableEq, Repr

/-- The identifiers the completed loops committed. -/
def doneSids (s : AllocState) : List String :=
  s.procs.filterMap Prod.fst

/-- One iteration of the allocation loop of process `p`, with candidate
oracle `cand p k` (the `k`-th random candidate drawn by process `p`):

* `commitFresh` — SELECT finds no row, the sentinel INSERT commits, and
  `if (!row) break` leaves the loop: the only way a loop completes;
* `commitDup` — SELECT finds the candidate taken, the (empty) transaction
  commits, the loop retries with the next candidate;
* `txnConflict` — the transaction raises (`SQLITE_BUSY` etc.), is rolled
  back, and the loop retries with the next candidate. -/
inductive AllocStep (cand : Nat → Nat → String) : AllocState → AllocState → Prop where
  | commitFresh (s : AllocState) (p k : Nat)
      (hp : s.procs[p]? = some (none, k))
      (hfresh : cand p k ∉ s.store) :
      AllocStep cand s ⟨cand p k :: s.store, s.procs.set p (some (cand p k), k + 1)⟩
  | commitDup (s : AllocState) (p k : Nat)
      (hp : s.procs[p]? = some (none, k))
      (hdup : cand p k ∈ s.store) :
      AllocStep cand s ⟨s.store, s.procs.set p (none, k + 1)⟩
  | txnConflict (s : AllocState) (p k : Nat)
      (hp : s.procs[p]? = some (none, k)) :
      AllocStep cand s ⟨s.store, s.procs.set p (none, k + 1)⟩

/-- The allocation invariant: the store is exactly the committed identifiers
on top of the initial rows, with no duplicates anywhere. -/
def AInv (init : List String) (N : Nat) (s : AllocState) : Prop :=
  s.procs.length = N ∧ s.store.Perm (doneSids s ++ init) ∧ (doneSids s ++ init).Nodup

/-! ### Dictionary lemmas -/

theorem lookup_map_update {β : Type} (l : List (String × β)) (k : String) (v : β)
    (hany : l.any (fun p => p.1 = k) = true) :
    (l.map (fun p => if p.1 = k then (k, v) else p)).lookup k = some v := by
  induction l with
  | nil => simp at hany
  | cons p l ih =>
    obtain ⟨a, b⟩ := p
    by_cases hk : a = k
    · subst hk
      simp only [List.map_cons]
      rw [if_pos trivial]
      simp [List.lookup]
    · have hany' : l.any (fun p => p.1 = k) = true := by
        simpa [hk] using hany
      have hne : (k == a) = false := by
        rw [beq_eq_false_iff_ne]
        exact fun he => hk he.symm
      simp only [List.map_cons]
      rw [if_neg (show ¬ (a, b).1 = k from hk)]
      simp only [List.lookup, hne]
      exact ih hany'

theorem lookup_append_single {β : Type} (l : List (String × β)) (k : String) (v : β)
    (hany : l.any (fun p => p.1 = k) = false) :
    (l ++ [(k, v)]).lookup k = some v := by
  induction l with
  | nil => simp [List.lookup]
  | cons p l ih =>
    have hk : ¬ (p.1 = k) := by
      intro he
      simp [he] at hany
    have hany' : l.any (fun p => p.1 = k) = false := by
      simpa [hk] using hany
    have hne : (k == p.1) = false := by
      rw [beq_eq_false_iff_ne]
      exact fun he => hk he.symm
    simp only [List.cons_append, List.lookup, hne]
    exact ih hany'

theorem lookup_insertA_self {β : Type} (l : List (String × β)) (k : String) (v : β) :
    (insertA l k v).lookup k = some v := by
  unfold insertA
  split
  · next hany => exact lookup_map_update l k v hany
  · next hany =>
    exact lookup_append_single l k v (Bool.eq_false_iff.mpr hany)

/-! ## Claim theorems -/

/-- Claim C4: for every sequence of `writeHead`, `setHeader`, `write` and
`end` calls on one `Response`, the first `write` or explicit `writeHead`
fixes the status code and header set — every later header mutation leaves
the emitted message stream unchanged — `write` after `end` is ignored, and
the emitted sequence is exactly one header message, preceding all write
messages, preceding one terminal end message (provided the sequence ends
the response at all: a sequence with no flushing call emits nothing). -/
theorem claim_C4_output_sink_contract (cs : List Call) (r : Resp)
    (code : Nat) (hs2 : List (String × String)) (n v : String) :
    (Call.endR ∈ cs → goodTrace (runCalls Resp.mk0 cs).2)
    ∧ (r.sentHeaders = true →
        (runCalls r (Call.writeHead code hs2 :: cs)).2 = (runCalls r cs).2
        ∧ (runCalls r (Call.setHeader n v :: cs)).2 = (runCalls r cs).2) := by
  constructor
  · intro hmem
    exact trace_shape cs Resp.mk0 rfl rfl hmem
  · intro hsent
    constructor
    · simp only [runCalls, Resp.step, writeHead_of_sent r code hs2 hsent]
      simp
    · simp only [runCalls, Resp.step, Resp.setHeader]
      have h := headers_irrelevant_after_sent cs r (setHdr r.headers n v) hsent
      simpa using h

theorem claim_C4_output_sink_contract_witness :
    goodTrace (runCalls Resp.mk0 [Call.setHeader "x" "y", Call.write "a", Call.endR]).2
    ∧ ((runCalls ⟨200, [], true, false, none⟩
          (Call.writeHead 404 [] :: [Call.write "a", Call.endR])).2 =
        (runCalls ⟨200, [], true, false, none⟩ [Call.write "a", Call.endR]).2
      ∧ (runCalls ⟨200, [], true, false, none⟩
          (Call.setHeader "x" "y" :: [Call.write "a", Call.endR])).2 =
        (runCalls ⟨200, [], true, false, none⟩ [Call.write "a", Call.endR]).2) :=
  ⟨(claim_C4_output_sink_contract [Call.setHeader "x" "y", Call.write "a", Call.endR]
      Resp.mk0 404 [] "x" "y").1 (by decide),
   (claim_C4_output_sink_contract [Call.write "a", Call.endR]
      ⟨200, [], true, false, none⟩ 404 [] "x" "y").2 rfl⟩

/-- Claim C10: the compiled output's literal `write` payloads are exactly
the literal segments of the template whose trim is nonempty, in order —
whitespace-only (and empty) segments produce no `write`, and every segment
holding a non-whitespace character is emitted verbatim as one `write` of
exactly that segment. -/
theorem claim_C10_whitespace_literal_segments (file : List Char) :
    litsOf (parse file) = (segs file).filter (fun s => trimNonempty s) :=
  parseLoop_lits file 0 0 false

/-- Claim C9: a request whose method is neither `GET` nor `POST` is answered
501 and ended by the dispatcher itself; the dispatcher state is returned
unchanged — no worker leaves the idle set and no run message is sent. -/
theorem claim_C9_unsupported_method_501 (d : Disp) (m : String) (reqId : Nat)
    (h1 : m ≠ "GET") (h2 : m ≠ "POST") :
    stepD d (Ev.request m reqId) = (d, [Out.h501 reqId, Out.endResp reqId]) := by
  simp [stepD, handleRequest, h1, h2]

theorem claim_C9_unsupported_method_501_witness :
    stepD initD (Ev.request "PUT" 7) = (initD, [Out.h501 7, Out.endResp 7]) :=
  claim_C9_unsupported_method_501 initD "PUT" 7 (by decide) (by decide)

/-- Claim C8: `get` on a handle on which `init` was never called (so no
session identifier is assigned, as the constructor builds it) returns the
absent value `false` and never raises; `get` on an initialized session for a
key with no stored pair returns the absent value `null` rather than raising
(`sessionGet` is a total function: no path throws). -/
theorem claim_C8_get_absent_never_raises (s : SessionH) (db : DB) (key : String) :
    (s.sid = none →
      sessionGet s db key = GetRes.ffalse ∧ (sessionGet s db key).isAbsent = true)
    ∧ (∀ sid, s.sid = some sid →
        db.find? (fun r => r.sid == sid && r.key == key) = none →
        sessionGet s db key = GetRes.nullv ∧ (sessionGet s db key).isAbsent = true) := by
  constructor
  · intro h
    simp [sessionGet, h, GetRes.isAbsent]
  · intro sid hsid hfind
    simp [sessionGet, hsid, hfind, GetRes.isAbsent]

theorem claim_C8_get_absent_never_raises_witness :
    (sessionGet SessionH.mk0 [⟨"z", "k", "v", 99⟩] "k" = GetRes.ffalse
      ∧ (sessionGet SessionH.mk0 [⟨"z", "k", "v", 99⟩] "k").isAbsent = true)
    ∧ (sessionGet ⟨true, some "ab", some 5⟩ [⟨"z", "k", "v", 99⟩] "other" = GetRes.nullv
      ∧ (sessionGet ⟨true, some "ab", some 5⟩ [⟨"z", "k", "v", 99⟩] "other").isAbsent = true) :=
  ⟨(claim_C8_get_absent_never_raises SessionH.mk0 [⟨"z", "k", "v", 99⟩] "k").1 rfl,
   (claim_C8_get_absent_never_raises ⟨true, some "ab", some 5⟩ [⟨"z", "k", "v", 99⟩]
      "other").2 "ab" rfl (by decide)⟩

/-- Claim C2: when a cache entry (`times` and `funcs`) exists for a path and
its stored modification time is `≥` the file's current modification time,
`compile` returns the identical cached unit with no read of the file content
and an unchanged cache; when the file's modification time strictly exceeds
the stored one (and the new source compiles), `compile` re-reads the file,
recompiles, and replaces the entry with the new unit and the observed
modification time. -/
theorem claim_C2_mtime_cache (check : CompiledUnit → Option String) (fsys : FileSys)
    (st : CState) (fname : String) (t : Nat) (f : CompiledUnit) (m : Nat) (c : List Char)
    (h1 : st.times.lookup fname = some t)
    (h2 : st.funcs.lookup fname = some f)
    (h3 : fsys fname = some (m, c)) :
    (m ≤ t → compile check fsys st fname = .ok (some f, st, false))
    ∧ (t < m → check ⟨fname, parse c⟩ = none →
        compile check fsys st fname =
          .ok (some ⟨fname, parse c⟩,
            ⟨insertA st.times fname m, insertA st.funcs fname ⟨fname, parse c⟩⟩, true)
        ∧ (insertA st.times fname m).lookup fname = some m
        ∧ (insertA st.funcs fname ⟨fname, parse c⟩).lookup fname
            = some ⟨fname, parse c⟩) := by
  constructor
  · intro hle
    simp [compile, h3, cachedUnit, h1, hle, h2]
  · intro hlt hok
    refine ⟨?_, lookup_insertA_self _ _ _, lookup_insertA_self _ _ _⟩
    have hnle : ¬ (m ≤ t) := by omega
    simp [compile, h3, cachedUnit, h1, hnle, hok]

theorem claim_C2_mtime_cache_witness :
    (compile (fun _ => none) (fun n => if n = "f" then some (3, ([] : List Char)) else none)
        ⟨[("f", 5)], [("f", ⟨"f", []⟩)]⟩ "f" =
      .ok (some ⟨"f", []⟩, ⟨[("f", 5)], [("f", ⟨"f", []⟩)]⟩, false))
    ∧ (compile (fun _ => none) (fun n => if n = "f" then some (7, ([] : List Char)) else none)
        ⟨[("f", 5)], [("f", ⟨"f", []⟩)]⟩ "f" =
      .ok (some ⟨"f", parse []⟩,
        ⟨insertA [("f", 5)] "f" 7, insertA [("f", ⟨"f", []⟩)] "f" ⟨"f", parse []⟩⟩, true)) :=
  ⟨(claim_C2_mtime_cache (fun _ => none)
      (fun n => if n = "f" then some (3, ([] : List Char)) else none)
      ⟨[("f", 5)], [("f", ⟨"f", []⟩)]⟩ "f" 5 ⟨"f", []⟩ 3 []
      (by decide) (by decide) (by decide)).1 (by decide),
   ((claim_C2_mtime_cache (fun _ => none)
      (fun n => if n = "f" then some (7, ([] : List Char)) else none)
      ⟨[("f", 5)], [("f", ⟨"f", []⟩)]⟩ "f" 5 ⟨"f", []⟩ 7 []
      (by decide) (by decide) (by decide)).2 (by decide) rfl).1⟩

/-- Claim C3: a failed template compilation raises the original error with
the cache maps untouched; `run` answers with a 500 header, the error body
and the terminal message, and emits exactly one out-of-band report; and
because nothing was cached, a later `compile` for the same path (with the
file fixed) recompiles and succeeds — failures are not cached. -/
theorem claim_C3_compile_failure_not_cached (check : CompiledUnit → Option String)
    (fsys : FileSys) (st : CState) (pname fname acceptEncoding : String)
    (m : Nat) (c : List Char) (err : String)
    (cs : List Call) (uerr : Option String)
    (h3 : fsys fname = some (m, c))
    (hmiss : cachedUnit st fname m = none)
    (hbad : check ⟨fname, parse c⟩ = some err) :
    compile check fsys st fname = .error err
    ∧ runModel check fsys st pname fname acceptEncoding cs uerr =
        (st, ⟨200, [("content-type", "text/plain")], true, true, none⟩,
          [Msg.h 500 [("content-type", "text/plain")],
           Msg.w "500: Internal server error", Msg.e],
          [⟨pname, fname, err⟩])
    ∧ (∀ (fsys2 : FileSys) (m2 : Nat) (c2 : List Char),
        fsys2 fname = some (m2, c2) → cachedUnit st fname m2 = none →
        check ⟨fname, parse c2⟩ = none →
        compile check fsys2 st fname =
          .ok (some ⟨fname, parse c2⟩,
            ⟨insertA st.times fname m2, insertA st.funcs fname ⟨fname, parse c2⟩⟩,
            true)) := by
  have hcomp : compile check fsys st fname = .error err := by
    simp [compile, h3, hmiss, hbad]
  refine ⟨hcomp, ?_, ?_⟩
  · simp only [runModel, hcomp, Prod.mk.injEq]
    exact ⟨trivial, by decide, by decide, trivial⟩
  · intro fsys2 m2 c2 h2 hm2 hok2
    simp [compile, h2, hm2, hok2]

theorem claim_C3_compile_failure_not_cached_witness :
    compile (fun _ => some "SyntaxError")
        (fun n => if n = "f" then some (1, ([] : List Char)) else none) ⟨[], []⟩ "f" =
      .error "SyntaxError"
    ∧ runModel (fun _ => some "SyntaxError")
        (fun n => if n = "f" then some (1, ([] : List Char)) else none) ⟨[], []⟩
        "p" "f" "" [] none =
      (⟨[], []⟩, ⟨200, [("content-type", "text/plain")], true, true, none⟩,
        [Msg.h 500 [("content-type", "text/plain")],
         Msg.w "500: Internal server error", Msg.e],
        [⟨"p", "f", "SyntaxError"⟩]) :=
  ⟨(claim_C3_compile_failure_not_cached (fun _ => some "SyntaxError")
      (fun n => if n = "f" then some (1, ([] : List Char)) else none) ⟨[], []⟩
      "p" "f" "" 1 [] "SyntaxError" [] none (by decide) rfl rfl).1,
   (claim_C3_compile_failure_not_cached (fun _ => some "SyntaxError")
      (fun n => if n = "f" then some (1, ([] : List Char)) else none) ⟨[], []⟩
      "p" "f" "" 1 [] "SyntaxError" [] none (by decide) rfl rfl).2.1⟩

/-! ### Helper lemmas for the runtime-error settlement -/

theorem runCalls_append (r : Resp) (cs1 cs2 : List Call) :
    runCalls r (cs1 ++ cs2) =
      ((runCalls (runCalls r cs1).1 cs2).1,
        (runCalls r cs1).2 ++ (runCalls (runCalls r cs1).1 cs2).2) := by
  induction cs1 generalizing r with
  | nil => simp [runCalls]
  | cons c cs ih =>
    simp only [List.cons_append, runCalls, List.append_eq]
    rw [ih]
    simp

theorem compress_sentHeaders (r : Resp) (acc : String) :
    (r.compress acc).sentHeaders = r.sentHeaders ∧ (r.compress acc).ended = r.ended := by
  simp only [Resp.compress, Resp.setHeader]
  split
  · exact ⟨rfl, rfl⟩
  · split
    · exact ⟨rfl, rfl⟩
    · exact ⟨rfl, rfl⟩

theorem endR_fst_ended (r : Resp) : (r.endR).1.ended = true := by
  unfold Resp.endR
  split
  · next h => exact h
  · rfl

theorem write_marker_mem (r : Resp) (h : r.ended = false) :
    Msg.w "ERROR" ∈ (r.write "ERROR").2 := by
  unfold Resp.write
  rw [if_neg (by simp [h])]
  simp

/-- Claim C6 (counterexample to the claim as stated): a page that throws
before any output leaves `sentHeaders` unset, and the catch handler's
`res.write("ERROR")` implicitly flushes a **200** header, not a 500 one —
the emitted trace carries no 500 header message at all. -/
theorem claim_C6_counterexample :
    (runModel (fun _ => none)
        (fun n => if n = "f" then some (1, ([] : List Char)) else none)
        ⟨[], []⟩ "p" "f" "" [] (some "boom")).2.2.1 =
      [Msg.h 200 [("content-type", "text/html"), ("content-encoding", "identity")],
       Msg.w "ERROR", Msg.e]
    ∧ headerCodes (runModel (fun _ => none)
        (fun n => if n = "f" then some (1, ([] : List Char)) else none)
        ⟨[], []⟩ "p" "f" "" [] (some "boom")).2.2.1 = [200]
    ∧ (500 : Nat) ∉ headerCodes (runModel (fun _ => none)
        (fun n => if n = "f" then some (1, ([] : List Char)) else none)
        ⟨[], []⟩ "p" "f" "" [] (some "boom")).2.2.1 := by
  refine ⟨?_, ?_, ?_⟩ <;> decide

/-- Claim C6 (amended): for every request whose unit throws, the worker
appends the `"ERROR"` marker write to the response — emitted whenever the
unit had not already ended the response, and preceded by an implicit
**200**-status header flush when headers were not yet sent — always ends the
response (the emission is one header, the writes, one terminal), and
produces exactly one out-of-band error report carrying the page's file
path. -/
theorem claim_C6_runtime_error_settlement (check : CompiledUnit → Option String)
    (fsys : FileSys) (st st2 : CState) (pname fname acc : String) (b : Bool)
    (u : CompiledUnit) (cs : List Call) (ex : String)
    (hcomp : compile check fsys st fname = .ok (some u, st2, b))
    (_hacc : (Resp.mk0.compress acc).compression = none) :
    (runModel check fsys st pname fname acc cs (some ex)).2.2.2 = [⟨pname, fname, ex⟩]
    ∧ (runModel check fsys st pname fname acc cs (some ex)).2.1.ended = true
    ∧ goodTrace (runModel check fsys st pname fname acc cs (some ex)).2.2.1
    ∧ ((runCalls (Resp.mk0.compress acc) cs).1.ended = false →
        Msg.w "ERROR" ∈ (runModel check fsys st pname fname acc cs (some ex)).2.2.1) := by
  have h0s : (Resp.mk0.compress acc).sentHeaders = false :=
    (compress_sentHeaders Resp.mk0 acc).1
  have h0e : (Resp.mk0.compress acc).ended = false :=
    (compress_sentHeaders Resp.mk0 acc).2
  simp only [runModel, hcomp]
  refine ⟨trivial, endR_fst_ended _, ?_, ?_⟩
  · have hshape := trace_shape (cs ++ [Call.write "ERROR", Call.endR])
      (Resp.mk0.compress acc) h0s h0e (by simp)
    rw [runCalls_append] at hshape
    simpa [runCalls, Resp.step] using hshape
  · intro hne
    have hmem := write_marker_mem (runCalls (Resp.mk0.compress acc) cs).1 hne
    simp [hmem]

theorem claim_C6_runtime_error_settlement_witness :
    (runModel (fun _ => none)
        (fun n => if n = "g" then some (2, ([] : List Char)) else none)
        ⟨[], []⟩ "q" "g" "" [] (some "oops")).2.2.2 = [⟨"q", "g", "oops"⟩]
    ∧ (runModel (fun _ => none)
        (fun n => if n = "g" then some (2, ([] : List Char)) else none)
        ⟨[], []⟩ "q" "g" "" [] (some "oops")).2.1.ended = true
    ∧ goodTrace (runModel (fun _ => none)
        (fun n => if n = "g" then some (2, ([] : List Char)) else none)
        ⟨[], []⟩ "q" "g" "" [] (some "oops")).2.2.1
    ∧ Msg.w "ERROR" ∈ (runModel (fun _ => none)
        (fun n => if n = "g" then some (2, ([] : List Char)) else none)
        ⟨[], []⟩ "q" "g" "" [] (some "oops")).2.2.1 := by
  have h := claim_C6_runtime_error_settlement (fun _ => none)
    (fun n => if n = "g" then some (2, ([] : List Char)) else none)
    ⟨[], []⟩ ⟨insertA [] "g" 2, insertA [] "g" ⟨"g", parse []⟩⟩ "q" "g" "" true
    ⟨"g", parse []⟩ [] "oops" rfl rfl
  exact ⟨h.1, h.2.1, h.2.2.1, h.2.2.2 rfl⟩

/-! ### Dispatcher invariant lemmas -/

theorem lookup_isSome_mem (l : List (Nat × Nat)) (w : Nat)
    (h : (l.lookup w).isSome = true) : w ∈ l.map Prod.fst := by
  induction l with
  | nil => simp [List.lookup] at h
  | cons q l ih =>
    by_cases hw : w = q.1
    · simp [hw]
    · have hne : (w == q.1) = false := by
        rw [beq_eq_false_iff_ne]
        exact hw
      simp only [List.lookup, hne] at h
      simp [ih h]

theorem busyWs_filter_sublist (busy : List (Nat × Nat)) (w : Nat) :
    ((busy.filter (fun q => q.1 ≠ w)).map Prod.fst).Sublist (busy.map Prod.fst) :=
  (List.filter_sublist _).map _

theorem not_mem_busyWs_filter (busy : List (Nat × Nat)) (w : Nat) :
    w ∉ (busy.filter (fun q => q.1 ≠ w)).map Prod.fst := by
  intro hc
  obtain ⟨q, hq, hqe⟩ := List.mem_map.mp hc
  have hne := List.of_mem_filter hq
  simp only [ne_eq, decide_not, Bool.not_eq_true', decide_eq_false_iff_not] at hne
  exact hne hqe

theorem spawn_inv (d : Disp) (h : DInv d) : DInv (spawnThread d) := by
  obtain ⟨h1, h2, h3, h4, h5⟩ := h
  refine ⟨?_, h2, ?_, ?_, ?_⟩
  · simp only [spawnThread, List.nodup_append]
    refine ⟨h1, List.nodup_singleton _, ?_⟩
    intro a ha hb
    simp only [List.mem_singleton] at hb
    subst hb
    exact absurd (h4 _ ha) (lt_irrefl _)
  · intro w hw
    simp only [spawnThread, List.mem_append, List.mem_singleton] at hw
    rcases hw with hw | hw
    · exact h3 w hw
    · subst hw
      intro hc
      exact absurd (h5 _ hc) (lt_irrefl _)
  · intro w hw
    simp only [spawnThread, List.mem_append, List.mem_singleton] at hw
    rcases hw with hw | hw
    · exact Nat.lt_succ_of_lt (h4 w hw)
    · subst hw
      exact Nat.lt_succ_self _
  · intro w hw
    exact Nat.lt_succ_of_lt (h5 w hw)

theorem go_spec (d : Disp) (reqId : Nat) (h : DInv d) :
    ∃ w, (go d reqId).2 = [Out.sent w reqId]
      ∧ w ∉ busyWs d
      ∧ (go d reqId).1.busy = (w, reqId) :: d.busy
      ∧ w ∉ (go d reqId).1.ready
      ∧ (go d reqId).1.ready ≠ []
      ∧ (d.ready = [] → w = d.nextId)
      ∧ DInv (go d reqId).1 := by
  obtain ⟨h1, h2, h3, h4, h5⟩ := h
  by_cases he : d.ready = []
  · have hgo : go d reqId =
        ({ nextId := d.nextId + 1 + 1, ready := [d.nextId + 1],
           busy := (d.nextId, reqId) :: d.busy }, [Out.sent d.nextId reqId]) := by
      simp [go, he, spawnThread]
    have hnb : d.nextId ∉ busyWs d := fun hc => absurd (h5 _ hc) (lt_irrefl _)
    have hD : DInv ({ nextId := d.nextId + 1 + 1,
                      ready := [d.nextId + 1],
                      busy := (d.nextId, reqId) :: d.busy } : Disp) := by
      refine ⟨List.nodup_singleton _, ?_, ?_, ?_, ?_⟩
      · show (d.nextId :: busyWs d).Nodup
        exact List.nodup_cons.mpr ⟨hnb, h2⟩
      · intro v hv
        simp only [List.mem_singleton] at hv
        subst hv
        show d.nextId + 1 ∉ d.nextId :: busyWs d
        intro hc
        rcases List.mem_cons.mp hc with hc | hc
        · omega
        · exact absurd (h5 _ hc) (by omega)
      · intro v hv
        simp only [List.mem_singleton] at hv
        subst hv
        show d.nextId + 1 < d.nextId + 1 + 1
        omega
      · intro v hv
        show v < d.nextId + 1 + 1
        rcases List.mem_cons.mp hv with hv | hv
        · subst hv
          omega
        · have := h5 v hv
          omega
    refine ⟨d.nextId, by rw [hgo], hnb, by rw [hgo], ?_, ?_, fun _ => rfl, ?_⟩
    · rw [hgo]
      show d.nextId ∉ [d.nextId + 1]
      simp only [List.mem_singleton]
      omega
    · rw [hgo]
      show ([d.nextId + 1] : List Nat) ≠ []
      simp
    · rw [hgo]
      exact hD
  · obtain ⟨thr, rest, hr⟩ := List.exists_cons_of_ne_nil he
    have hmem : thr ∈ d.ready := by
      rw [hr]
      exact List.mem_cons_self _ _
    have hthr_nb : thr ∉ busyWs d := h3 thr hmem
    have hthr_lt : thr < d.nextId := h4 thr hmem
    have hnodup : (thr :: rest).Nodup := hr ▸ h1
    have hthr_rest : thr ∉ rest := (List.nodup_cons.mp hnodup).1
    have hrest_nodup : rest.Nodup := (List.nodup_cons.mp hnodup).2
    have hrest_sub : ∀ v ∈ rest, v ∈ d.ready := by
      intro v hv
      rw [hr]
      exact List.mem_cons_of_mem _ hv
    by_cases hre : rest = []
    · subst hre
      have hgo : go d reqId =
          ({ nextId := d.nextId + 1, ready := [d.nextId],
             busy := (thr, reqId) :: d.busy }, [Out.sent thr reqId]) := by
        simp [go, hr, spawnThread]
      have hD : DInv ({ nextId := d.nextId + 1,
                        ready := [d.nextId],
                        busy := (thr, reqId) :: d.busy } : Disp) := by
        refine ⟨List.nodup_singleton _, ?_, ?_, ?_, ?_⟩
        · show (thr :: busyWs d).Nodup
          exact List.nodup_cons.mpr ⟨hthr_nb, h2⟩
        · intro v hv
          simp only [List.mem_singleton] at hv
          subst hv
          show d.nextId ∉ thr :: busyWs d
          intro hc
          rcases List.mem_cons.mp hc with hc | hc
          · omega
          · exact absurd (h5 _ hc) (lt_irrefl _)
        · intro v hv
          simp only [List.mem_singleton] at hv
          subst hv
          show d.nextId < d.nextId + 1
          omega
        · intro v hv
          show v < d.nextId + 1
          rcases List.mem_cons.mp hv with hv | hv
          · subst hv
            omega
          · have := h5 v hv
            omega
      refine ⟨thr, by rw [hgo], hthr_nb, by rw [hgo], ?_, ?_,
        fun hc => absurd hc he, ?_⟩
      · rw [hgo]
        show thr ∉ [d.nextId]
        simp only [List.mem_singleton]
        omega
      · rw [hgo]
        show ([d.nextId] : List Nat) ≠ []
        simp
      · rw [hgo]
        exact hD
    · obtain ⟨r0, rs, hre2⟩ := List.exists_cons_of_ne_nil hre
      have hgo : go d reqId =
          ({ nextId := d.nextId, ready := rest, busy := (thr, reqId) :: d.busy },
            [Out.sent thr reqId]) := by
        simp [go, hr, hre2, spawnThread]
      have hD : DInv ({ nextId := d.nextId,
                        ready := rest,
                        busy := (thr, reqId) :: d.busy } : Disp) := by
        refine ⟨hrest_nodup, ?_, ?_, ?_, ?_⟩
        · show (thr :: busyWs d).Nodup
          exact List.nodup_cons.mpr ⟨hthr_nb, h2⟩
        · intro v hv
          show v ∉ thr :: busyWs d
          intro hc
          rcases List.mem_cons.mp hc with hc | hc
          · subst hc
            exact hthr_rest hv
          · exact h3 v (hrest_sub v hv) hc
        · intro v hv
          exact h4 v (hrest_sub v hv)
        · intro v hv
          show v < d.nextId
          rcases List.mem_cons.mp hv with hv | hv
          · subst hv
            exact hthr_lt
          · exact h5 v hv
      refine ⟨thr, by rw [hgo], hthr_nb, by rw [hgo], ?_, ?_,
        fun hc => absurd hc he, ?_⟩
      · rw [hgo]
        exact hthr_rest
      · rw [hgo]
        show rest ≠ []
        exact hre
      · rw [hgo]
        exact hD

theorem onMsgE_inv (d : Disp) (w : Nat) (h : DInv d) : DInv (onMsgE d w) := by
  obtain ⟨h1, h2, h3, h4, h5⟩ := h
  unfold onMsgE
  split
  · next hsome =>
    have hwb : w ∈ busyWs d := lookup_isSome_mem d.busy w hsome
    have hwr : w ∉ d.ready := fun hc => h3 w hc hwb
    have hsub := busyWs_filter_sublist d.busy w
    refine ⟨?_, h2.sublist hsub, ?_, ?_, ?_⟩
    · simp only [List.nodup_append]
      refine ⟨h1, List.nodup_singleton _, ?_⟩
      intro a ha hb
      simp only [List.mem_singleton] at hb
      subst hb
      exact hwr ha
    · intro v hv
      simp only [List.mem_append, List.mem_singleton] at hv
      rcases hv with hv | hv
      · intro hc
        exact h3 v hv (hsub.subset hc)
      · subst hv
        exact not_mem_busyWs_filter d.busy _
    · intro v hv
      simp only [List.mem_append, List.mem_singleton] at hv
      rcases hv with hv | hv
      · exact h4 v hv
      · subst hv
        exact h5 _ hwb
    · intro v hv
      exact h5 v (hsub.subset hv)
  · exact ⟨h1, h2, h3, h4, h5⟩

theorem onExit_inv (d : Disp) (w : Nat) (h : DInv d) : DInv (onExit d w) := by
  obtain ⟨h1, h2, h3, h4, h5⟩ := h
  have hrs : (d.ready.erase w).Sublist d.ready := List.erase_sublist w d.ready
  have hsub := busyWs_filter_sublist d.busy w
  exact ⟨h1.sublist hrs, h2.sublist hsub,
    fun v hv hc => h3 v (hrs.subset hv) (hsub.subset hc),
    fun v hv => h4 v (hrs.subset hv),
    fun v hv => h5 v (hsub.subset hv)⟩

theorem stepD_inv (d : Disp) (e : Ev) (h : DInv d) : DInv (stepD d e).1 := by
  cases e with
  | request m reqId =>
    simp only [stepD, handleRequest]
    split
    · obtain ⟨w, hspec⟩ := go_spec d reqId h
      exact hspec.2.2.2.2.2.2
    · split
      · obtain ⟨w, hspec⟩ := go_spec d reqId h
        exact hspec.2.2.2.2.2.2
      · exact h
  | msgE w => exact onMsgE_inv d w h
  | exited w => exact onExit_inv d w h

theorem runD_inv (es : List Ev) (d : Disp) (h : DInv d) : DInv (runD d es) := by
  induction es generalizing d with
  | nil => exact h
  | cons e es ih => exact ih _ (stepD_inv d e h)

theorem initD_inv : DInv initD := by
  refine ⟨?_, ?_, ?_, ?_, ?_⟩ <;> simp [initD, spawnThread, busyWs, DInv]

/-- Claim C5: from the initial dispatcher state, every event sequence keeps
the pool sane (no duplicate idle entries, no worker bound to two responses,
Idle and Busy disjoint); and any single inbound GET/POST request handled by
`go` from a sane state is forwarded to exactly one worker that was not Busy
— spawned fresh when the idle set was empty — that worker leaves the idle
set (it cannot be selected again until its terminal message returns it), the
request is bound (never dropped), and the resulting idle set is nonempty (a
replacement is spawned whenever the removal drained it). -/
theorem claim_C5_dispatcher_never_busy_never_drops (es : List Ev) (d : Disp)
    (reqId : Nat) (hInv : DInv d) :
    DInv (runD initD es)
    ∧ (∃ w, (go d reqId).2 = [Out.sent w reqId]
        ∧ w ∉ busyWs d
        ∧ (go d reqId).1.busy = (w, reqId) :: d.busy
        ∧ w ∉ (go d reqId).1.ready
        ∧ (go d reqId).1.ready ≠ []
        ∧ (d.ready = [] → w = d.nextId)) := by
  constructor
  · exact runD_inv es initD initD_inv
  · obtain ⟨w, hspec⟩ := go_spec d reqId hInv
    exact ⟨w, hspec.1, hspec.2.1, hspec.2.2.1, hspec.2.2.2.1, hspec.2.2.2.2.1,
      hspec.2.2.2.2.2.1⟩

theorem claim_C5_dispatcher_never_busy_never_drops_witness :
    DInv (runD initD [Ev.request "GET" 0])
    ∧ (∃ w, (go initD 0).2 = [Out.sent w 0]
        ∧ w ∉ busyWs initD
        ∧ (go initD 0).1.busy = (w, 0) :: initD.busy
        ∧ w ∉ (go initD 0).1.ready
        ∧ (go initD 0).1.ready ≠ []
        ∧ (initD.ready = [] → w = initD.nextId)) :=
  claim_C5_dispatcher_never_busy_never_drops [Ev.request "GET" 0] initD 0 initD_inv

/-! ### Session-init idempotence -/

theorem initRel_inited (now : Nat) (cookies : List (String × String))
    (hasResponse : Bool) (cfg : InitConfig) (s : SessionH) (db : DB) (out : InitOut)
    (h : InitRel now cookies hasResponse cfg s db out) : out.1.inited = true := by
  cases h with
  | alreadyInited hin => exact hin
  | noResponse hin hr => rfl
  | adoptExisting sid hin hr hc => rfl
  | allocFresh sidNew retryOps hin hr hc hfresh => rfl

/-- Claim C7: `init` is idempotent per handle — after a completed first
`init` call (under any timing, cookies, response availability and
configuration), a second `init` call, under any other configuration, is a
no-op: it performs no store operations, sets no cookie, and returns the
handle, its identifier and expiry, and the stored rows exactly as the first
call left them. -/
theorem claim_C7_init_idempotent (now1 now2 : Nat)
    (ck1 ck2 : List (String × String)) (hr1 hr2 : Bool)
    (cfg1 cfg2 : InitConfig) (s0 s1 : SessionH) (db0 db1 : DB)
    (ops1 : List DbOp) (c1 : Option SetCookie) (out2 : InitOut)
    (h1 : InitRel now1 ck1 hr1 cfg1 s0 db0 (s1, db1, ops1, c1))
    (h2 : InitRel now2 ck2 hr2 cfg2 s1 db1 out2) :
    out2 = (s1, db1, [], none) := by
  have hin : s1.inited = true := by
    have := initRel_inited now1 ck1 hr1 cfg1 s0 db0 (s1, db1, ops1, c1) h1
    exact this
  cases h2 with
  | alreadyInited hin2 => rfl
  | noResponse hin2 hr => rw [hin] at hin2; cases hin2
  | adoptExisting sid hin2 hr hc => rw [hin] at hin2; cases hin2
  | allocFresh sidNew retryOps hin2 hr hc hfresh => rw [hin] at hin2; cases hin2

theorem claim_C7_init_idempotent_witness :
    ((⟨true, none, some 60⟩, [], [], none) : InitOut) =
      ((⟨true, none, some 60⟩ : SessionH), ([] : DB), ([] : List DbOp),
        (none : Option SetCookie)) :=
  claim_C7_init_idempotent 1 3 [] [] false true ⟨some 60, none⟩ ⟨some 120, some "/x"⟩
    SessionH.mk0 ⟨true, none, some 60⟩ [] [] [DbOp.setup] none
    (⟨true, none, some 60⟩, [], [], none)
    (InitRel.noResponse SessionH.mk0 [] rfl rfl)
    (InitRel.alreadyInited ⟨true, none, some 60⟩ [] rfl)

/-! ### Allocation-race lemmas -/

theorem filterMap_fst_set_done (l : List (Option String × Nat)) (p k : Nat) (c : String)
    (hp : l[p]? = some (none, k)) :
    ((l.set p (some c, k + 1)).filterMap Prod.fst).Perm (c :: l.filterMap Prod.fst) := by
  induction l generalizing p with
  | nil => simp at hp
  | cons q l ih =>
    cases p with
    | zero =>
      simp only [List.getElem?_cons_zero, Option.some.injEq] at hp
      subst hp
      simp [List.filterMap_cons]
    | succ p =>
      simp only [List.getElem?_cons_succ] at hp
      have hperm := ih p hp
      rw [List.set_cons_succ]
      cases hq : q.1 with
      | none =>
        simpa [List.filterMap_cons, hq] using hperm
      | some v =>
        simp only [List.filterMap_cons, hq]
        exact (hperm.cons v).trans (List.Perm.swap c v _)

theorem filterMap_fst_set_retry (l : List (Option String × Nat)) (p k : Nat)
    (hp : l[p]? = some (none, k)) :
    (l.set p (none, k + 1)).filterMap Prod.fst = l.filterMap Prod.fst := by
  induction l generalizing p with
  | nil => simp at hp
  | cons q l ih =>
    cases p with
    | zero =>
      simp only [List.getElem?_cons_zero, Option.some.injEq] at hp
      subst hp
      simp [List.filterMap_cons]
    | succ p =>
      simp only [List.getElem?_cons_succ] at hp
      rw [List.set_cons_succ]
      simp only [List.filterMap_cons, ih p hp]

theorem filterMap_fst_length_of_done (procs : List (Option String × Nat))
    (h : ∀ q ∈ procs, q.1.isSome = true) :
    (procs.filterMap Prod.fst).length = procs.length := by
  induction procs with
  | nil => rfl
  | cons q l ih =>
    obtain ⟨v, hv⟩ := Option.isSome_iff_exists.mp (h q (List.mem_cons_self _ _))
    simp only [List.filterMap_cons, hv, List.length_cons]
    rw [ih (fun r hr => h r (List.mem_cons_of_mem _ hr))]

theorem filterMap_fst_replicate_none (N : Nat) :
    (List.replicate N ((none : Option String), 0)).filterMap Prod.fst = [] := by
  induction N with
  | zero => rfl
  | succ n ih => simp [List.replicate, List.filterMap_cons, ih]

theorem allocStep_inv (cand : Nat → Nat → String) (init : List String) (N : Nat)
    (s s' : AllocState) (hstep : AllocStep cand s s') (hinv : AInv init N s) :
    AInv init N s' := by
  obtain ⟨hlen, hperm, hnodup⟩ := hinv
  cases hstep with
  | commitFresh p k hp hfresh =>
    have hds := filterMap_fst_set_done s.procs p k (cand p k) hp
    refine ⟨by simpa using hlen, ?_, ?_⟩
    · exact (hperm.cons _).trans ((hds.symm).append_right init)
    · have hc_not : cand p k ∉ doneSids s ++ init := fun hc =>
        hfresh (hperm.mem_iff.mpr hc)
      have hnd : (cand p k :: (doneSids s ++ init)).Nodup :=
        List.nodup_cons.mpr ⟨hc_not, hnodup⟩
      exact ((hds.symm).append_right init).nodup hnd
  | commitDup p k hp hdup =>
    have hds := filterMap_fst_set_retry s.procs p k hp
    exact ⟨by simpa using hlen,
      by simpa [doneSids, hds] using hperm,
      by simpa [doneSids, hds] using hnodup⟩
  | txnConflict p k hp =>
    have hds := filterMap_fst_set_retry s.procs p k hp
    exact ⟨by simpa using hlen,
      by simpa [doneSids, hds] using hperm,
      by simpa [doneSids, hds] using hnodup⟩

theorem allocReach_inv (cand : Nat → Nat → String) (init : List String) (N : Nat)
    (s0 s : AllocState) (h0 : AInv init N s0)
    (hr : Relation.ReflTransGen (AllocStep cand) s0 s) : AInv init N s := by
  induction hr with
  | refl => exact h0
  | tail hab hstep ih => exact allocStep_inv cand init N _ _ hstep ih

/-- Claim C1: the identifier-allocation retry loop is collision-free — in
every state reachable from `N` racing `init` allocation loops over an
initial store, a loop only completes by committing a sentinel for a
candidate that was absent from the store at commit time (the only completing
transition of `AllocStep`), no two completed loops hold the same identifier,
every completed identifier is in the store and was not initially there, and
once all `N` loops have completed the store holds exactly the `N` distinct
new sentinel rows on top of the initial ones. -/
theorem claim_C1_alloc_collision_free (cand : Nat → Nat → String) (init : List String)
    (N : Nat) (s : AllocState) (hinit : init.Nodup)
    (hr : Relation.ReflTransGen (AllocStep cand)
      ⟨init, List.replicate N (none, 0)⟩ s) :
    (doneSids s).Nodup
    ∧ (∀ sid ∈ doneSids s, sid ∈ s.store ∧ sid ∉ init)
    ∧ ((∀ q ∈ s.procs, q.1.isSome = true) →
        (doneSids s).length = N ∧ s.store.Perm (doneSids s ++ init)) := by
  have h0 : AInv init N ⟨init, List.replicate N (none, 0)⟩ := by
    refine ⟨by simp, ?_, ?_⟩
    · show init.Perm (doneSids ⟨init, List.replicate N (none, 0)⟩ ++ init)
      simp [doneSids, filterMap_fst_replicate_none]
    · show (doneSids ⟨init, List.replicate N (none, 0)⟩ ++ init).Nodup
      simpa [doneSids, filterMap_fst_replicate_none] using hinit
  obtain ⟨hlen, hperm, hnodup⟩ := allocReach_inv cand init N _ s h0 hr
  have hsplit := List.nodup_append.mp hnodup
  refine ⟨hsplit.1, ?_, ?_⟩
  · intro sid hsid
    refine ⟨hperm.mem_iff.mpr (List.mem_append_left _ hsid), ?_⟩
    intro hc
    exact hsplit.2.2 hsid hc
  · intro hall
    refine ⟨?_, hperm⟩
    show (s.procs.filterMap Prod.fst).length = N
    rw [filterMap_fst_length_of_done s.procs hall]
    exact hlen

theorem claim_C1_alloc_collision_free_witness :
    (doneSids ⟨["b", "a"], [(some "a", 1), (some "b", 1)]⟩).Nodup
    ∧ (∀ sid ∈ doneSids ⟨["b", "a"], [(some "a", 1), (some "b", 1)]⟩,
        sid ∈ (⟨["b", "a"], [(some "a", 1), (some "b", 1)]⟩ : AllocState).store
          ∧ sid ∉ ([] : List String))
    ∧ ((∀ q ∈ (⟨["b", "a"], [(some "a", 1), (some "b", 1)]⟩ : AllocState).procs,
          q.1.isSome = true) →
        (doneSids ⟨["b", "a"], [(some "a", 1), (some "b", 1)]⟩).length = 2
        ∧ (⟨["b", "a"], [(some "a", 1), (some "b", 1)]⟩ : AllocState).store.Perm
            (doneSids ⟨["b", "a"], [(some "a", 1), (some "b", 1)]⟩ ++ [])) :=
  claim_C1_alloc_collision_free (fun p _ => if p = 0 then "a" else "b") [] 2
    ⟨["b", "a"], [(some "a", 1), (some "b", 1)]⟩ (by decide)
    (Relation.ReflTransGen.head
      (AllocStep.commitFresh ⟨[], [(none, 0), (none, 0)]⟩ 0 0 (by decide) (by decide))
      (Relation.ReflTransGen.head
        (AllocStep.commitFresh ⟨["a"], [(some "a", 1), (none, 0)]⟩ 1 0
          (by decide) (by decide))
        Relation.ReflTransGen.refl))

end NJSP
